import Mathlib

/-!
Shallow embedding of the `rust-hll` library (a HyperLogLog cardinality
estimator) and proofs about it.

Modelling conventions:
* Machine integers (`u8`, `u32`, `u64`, `usize`) are modelled as `ℕ`, with an
  explicit `% 2^w` at every place where the Rust code can wrap (`as u8` casts,
  `u8` shifts).  Signed integers (`i32`, `i64`) are modelled as `ℤ` where the
  sign matters (`explicit_threshold`, `sparse_threshold`).
* `f64` values are modelled as `ℝ`; the cached floating-point fields of the
  Rust `Settings` struct (`alpha_msquared`, `small_estimator_cutoff`,
  `large_estimator_cutoff`, `two_to_l`, and the integer masks `pw_max_mask`,
  `m_bits_mask`) are always computed by `Settings::new` from `log_2m` and
  `reg_width`, so they are modelled as functions of the struct instead of
  fields.  `sparse_threshold` stays a field (tests mutate it directly).
* Growable byte buffers (`Vec<u8>`, `&mut [u8]`) are `List ℕ`; `BTreeSet<i64>`
  and `BTreeMap<u32, u8>` are sorted association lists with the same
  insertion semantics.
* Functions that can panic on malformed input (`Hll::from_bytes` and the
  payload decoders it calls) return `Option`, with `none` marking a panic
  (out-of-bounds index / slice).
-/

/-- src/utils.rs `divide_by_8_round_up`: `i >> 3`, plus one when `i & 7 > 0`. -/
def divide_by_8_round_up (i : ℕ) : ℕ :=
  if i &&& 0x07 > 0 then (i >>> 3) + 1 else i >>> 3

/-- src/utils.rs `calc_position`: returns `(idx, pos)` = `(addr / 8, addr % 8)`
for `addr = reg_num * reg_width`. -/
def calc_position (reg_num reg_width : ℕ) : ℕ × ℕ :=
  let addr := reg_num * reg_width
  (addr >>> 3, addr &&& 0x07)

/-- src/utils.rs `write_u8_bits`.  The buffer is a list of bytes; `u8`
arithmetic wraps, hence the `% 256` on the shifted values (Rust `u8` shifts
drop the overflowing bits). -/
def write_u8_bits (buf : List ℕ) (idx pos value n_bits : ℕ) : List ℕ :=
  if pos + n_bits ≤ 8 then
    let mask_offset := 8 - (pos + n_bits)
    let mask := ((2 ^ n_bits - 1) <<< mask_offset) % 256
    let b := (buf.getD idx 0 &&& (255 ^^^ mask)) ||| ((value <<< mask_offset) % 256)
    buf.set idx b
  else
    let n_bits_upper := 8 - pos
    let n_bits_lower := n_bits - n_bits_upper
    let mask_upper := 2 ^ n_bits_upper - 1
    let mask_lower := 255 >>> n_bits_lower
    let upper_value := (value >>> n_bits_lower) &&& mask_upper
    let lower_value := (value <<< (8 - n_bits_lower)) % 256
    let b0 := (buf.getD idx 0 &&& (255 ^^^ mask_upper)) ||| upper_value
    let b1 := (buf.getD (idx + 1) 0 &&& mask_lower) ||| lower_value
    (buf.set idx b0).set (idx + 1) b1

/-- src/utils.rs `read_u8_bits`. -/
def read_u8_bits (buf : List ℕ) (idx pos n_bits : ℕ) : ℕ :=
  if pos + n_bits ≤ 8 then
    (buf.getD idx 0 >>> (8 - (pos + n_bits))) &&& (2 ^ n_bits - 1)
  else
    let n_bits_upper := 8 - pos
    let n_bits_lower := n_bits - n_bits_upper
    let upper := ((buf.getD idx 0 &&& (2 ^ n_bits_upper - 1)) <<< n_bits_lower) % 256
    let lower := buf.getD (idx + 1) 0 >>> (8 - n_bits_lower)
    upper ||| lower

/-- Big-endian bytes of a `u32` value (Rust `u32::to_be_bytes`). -/
def to_be_4 (v : ℕ) : List ℕ :=
  [(v >>> 24) &&& 255, (v >>> 16) &&& 255, (v >>> 8) &&& 255, v &&& 255]

/-- Big-endian bytes of a `u64`/`i64` bit pattern (Rust `i64::to_be_bytes`). -/
def to_be_8 (v : ℕ) : List ℕ :=
  [(v >>> 56) &&& 255, (v >>> 48) &&& 255, (v >>> 40) &&& 255, (v >>> 32) &&& 255,
   (v >>> 24) &&& 255, (v >>> 16) &&& 255, (v >>> 8) &&& 255, v &&& 255]

/-- A big-endian byte list read back as a number (`u32::from_be_bytes` /
`i64::from_be_bytes` on the bit-pattern level). -/
def from_be (bs : List ℕ) : ℕ :=
  bs.foldl (fun a b => a * 256 + b) 0

/-- The full-byte tail of src/utils.rs `write_bits`: writes each byte of
`bytes` at consecutive byte positions starting at `(idx, pos)`. -/
def write_full_bytes (buf : List ℕ) (idx pos : ℕ) : List ℕ → List ℕ
  | [] => buf
  | b :: rest => write_full_bytes (write_u8_bits buf idx pos b 8) (idx + 1) pos rest

/-- src/utils.rs `write_bits`: writes the low `n_bits` of `value` (as a
big-endian `u32`) starting at bit position `(idx, pos)`. -/
def write_bits (buf : List ℕ) (idx pos value n_bits : ℕ) : List ℕ :=
  if n_bits = 0 then buf
  else
    let value_bytes := to_be_4 value
    let vbyte_cnt := divide_by_8_round_up n_bits
    let vidx := 4 - vbyte_cnt
    let w_bits := n_bits &&& 0x07
    if w_bits > 0 then
      let buf1 := write_u8_bits buf idx pos (value_bytes.getD vidx 0) w_bits
      let idx1 := if w_bits + pos > 0x07 then idx + 1 else idx
      let pos1 := (w_bits + pos) &&& 0x07
      write_full_bytes buf1 idx1 pos1 (value_bytes.drop (vidx + 1))
    else
      write_full_bytes buf idx pos (value_bytes.drop vidx)

/-- The full-byte tail of src/utils.rs `read_bits`. -/
def read_full_bytes (buf : List ℕ) (idx pos : ℕ) : ℕ → List ℕ
  | 0 => []
  | n + 1 => read_u8_bits buf idx pos 8 :: read_full_bytes buf (idx + 1) pos n

/-- src/utils.rs `read_bits`. -/
def read_bits (buf : List ℕ) (idx pos n_bits : ℕ) : ℕ :=
  let vbyte_cnt := divide_by_8_round_up n_bits
  let r_bits := n_bits &&& 0x07
  if r_bits > 0 then
    let p := read_u8_bits buf idx pos r_bits
    let idx1 := if r_bits + pos > 0x07 then idx + 1 else idx
    let pos1 := (r_bits + pos) &&& 0x07
    from_be (p :: read_full_bytes buf idx1 pos1 (vbyte_cnt - 1))
  else
    from_be (read_full_bytes buf idx pos vbyte_cnt)

/-- `u64::trailing_zeros`: index of the least significant set bit among the low
64 bits, or 64 when they are all clear. -/
def trailing_zeros_64 (n : ℕ) : ℕ :=
  (List.range 64).findIdx (fun i => n.testBit i)

/-- The bit length of a `u32` value (`32 - leading_zeros`), written as a fold
so that it reduces in the kernel. -/
def u32_size (n : ℕ) : ℕ :=
  (List.range 32).foldl (fun acc i => if n.testBit i then i + 1 else acc) 0

/-- `u32::leading_zeros`. -/
def u32_leading_zeros (n : ℕ) : ℕ := 32 - u32_size n

/-- src/settings.rs `Settings`.  Only the four configuration fields are kept;
the cached derived constants are modelled as functions below (they are always
computed from `log_2m` / `reg_width` by `Settings::new`). -/
structure Settings where
  log_2m : ℕ
  reg_width : ℕ
  explicit_threshold : ℤ
  sparse_threshold : Option ℤ
deriving DecidableEq

/-- src/settings.rs `SettingsError`. -/
inductive SettingsError where
  | Log2m
  | RegWidth
  | Threshold
  | MisMatch
deriving DecidableEq

/-- src/settings.rs: the cached field `m_bits_mask = (1 << log_2m) - 1`. -/
def Settings.m_bits_mask (s : Settings) : ℕ := 2 ^ s.log_2m - 1

/-- src/settings.rs `Settings::pw_max_mask`:
`shift = (((1 << reg_width) - 1) - 1) % 64`, mask `= !((1 << shift) - 1)`
as a `u64`. -/
def Settings.pw_max_mask_of (reg_width : ℕ) : ℕ :=
  let shift := ((2 ^ reg_width - 1) - 1) % 64
  2 ^ 64 - 2 ^ shift

/-- The cached field `pw_max_mask` of src/settings.rs `Settings`. -/
def Settings.pw_max_mask (s : Settings) : ℕ :=
  Settings.pw_max_mask_of s.reg_width

/-- src/settings.rs `Settings::calculate_explicit_threshold`
(`MAXIMUM_EXPLICIT_THRESHOLD = 1 << 17`). -/
def Settings.calculate_explicit_threshold (log_2m reg_width : ℕ) : ℕ :=
  let m := 2 ^ log_2m
  let full_representation_size := divide_by_8_round_up (reg_width * m)
  let num_longs := full_representation_size / 8
  if num_longs > 2 ^ 17 then 2 ^ 17 else num_longs

/-- src/settings.rs `Settings::calculate_sparse_threshold`.  The Rust code
computes `floor(log2(reg_bits / short_word_length))` in `f64`; for the
rational inputs that occur this equals `Nat.log2` of the integer quotient
(the `f64` division cannot round across a power of two here, and a negative
`log2` saturates to `0` under `as u32`, which `Nat.log2` of a quotient `< 2`
also yields). -/
def Settings.calculate_sparse_threshold (log_2m reg_width : ℕ) : ℤ :=
  let m := 2 ^ log_2m
  let reg_bits := m * reg_width
  let short_word_length := log_2m + reg_width
  let largest_pow2_less_than_cutoff := u32_size (reg_bits / short_word_length) - 1
  ((1 <<< largest_pow2_less_than_cutoff : ℕ) : ℤ)

/-- src/settings.rs `Settings::validate` (the threshold range check is
commented out in the source). -/
def Settings.validate (s : Settings) : Except SettingsError Unit :=
  if ¬ (4 ≤ s.log_2m ∧ s.log_2m ≤ 31) then .error .Log2m
  else if ¬ (1 ≤ s.reg_width ∧ s.reg_width ≤ 8) then .error .RegWidth
  else .ok ()

/-- src/settings.rs `Settings::new`. -/
def Settings.new (log_2m reg_width : ℕ) (explicit_threshold : ℤ)
    (sparse_enabled : Bool) : Except SettingsError Settings :=
  let sparse_threshold :=
    if sparse_enabled then some (Settings.calculate_sparse_threshold log_2m reg_width)
    else none
  let s : Settings := ⟨log_2m, reg_width, explicit_threshold, sparse_threshold⟩
  match s.validate with
  | .error e => .error e
  | .ok _ => .ok s

/-- src/settings.rs `Settings::settings_check`. -/
def Settings.settings_check (s other : Settings) : Except SettingsError Unit :=
  if s.log_2m = other.log_2m ∧ s.reg_width = other.reg_width then .ok ()
  else .error .MisMatch

/-- src/settings.rs `Settings::explicit_threshold()` (the accessor method;
`-1` means auto-calculate, other values are cast `as u32`). -/
def Settings.explicit_threshold_value (s : Settings) : ℕ :=
  if s.explicit_threshold = -1 then
    Settings.calculate_explicit_threshold s.log_2m s.reg_width
  else (s.explicit_threshold.emod (2 ^ 32)).toNat

/-- src/settings.rs `Settings::pack_cutoff_byte`.  For a positive threshold
Rust computes `u32::BITS - t.leading_zeros() - 1`, with
`leading_zeros = 32 - t.size` for `1 ≤ t < 2^32`. -/
def Settings.pack_cutoff_byte (s : Settings) : ℕ :=
  let threshold :=
    if s.explicit_threshold = -1 then 63
    else if s.explicit_threshold = 0 then 0
    else
      let t := (s.explicit_threshold.emod (2 ^ 32)).toNat
      32 - u32_leading_zeros t - 1
  let res := if s.sparse_threshold.isSome then threshold ||| (1 <<< 6) else threshold
  res % 256

/-- src/settings.rs `Settings::unpack_cutoff_byte`, returning
`(sparse_enabled, explicit_threshold)`. -/
def Settings.unpack_cutoff_byte (b : ℕ) : Bool × ℤ :=
  let sparse_enabled := b >>> 6 = 1
  let threshold := b &&& 0x3F
  if threshold = 0 then (sparse_enabled, 0)
  else if threshold = 63 then (sparse_enabled, -1)
  else (sparse_enabled, ((1 <<< (threshold - 1) : ℕ) : ℤ))

/-- src/lib.rs `Registers::set`, the part shared by Sparse and Dense: from a
raw value compute `(register index, p(w))`, or `none` when the substream value
is zero (in which case `set` is a no-op).  The `% 256` is the `as u8` cast of
`p_w`. -/
def set_calc (log_2m reg_width value : ℕ) : Option (ℕ × ℕ) :=
  let substream_value := value >>> log_2m
  if substream_value = 0 then none
  else
    let p_w := (1 + trailing_zeros_64 (substream_value ||| Settings.pw_max_mask_of reg_width)) % 256
    some (value &&& (2 ^ log_2m - 1), p_w)

/-- Order-preserving map from the `u64` bit pattern of an `i64` to `ℕ`:
flipping the sign bit makes unsigned comparison agree with `i64` comparison.
Used to keep the `BTreeSet<i64>` model sorted the way Rust iterates it. -/
def i64_key (v : ℕ) : ℕ := v ^^^ 2 ^ 63

/-- src/explicit.rs `ExplicitStorage`: a `BTreeSet<i64>` modelled as a list of
`u64` bit patterns kept sorted by `i64` order and duplicate-free. -/
structure ExplicitStorage where
  settings : Settings
  buf : List ℕ
deriving DecidableEq

/-- `BTreeSet<i64>::insert` on the sorted-list model. -/
def exp_insert : List ℕ → ℕ → List ℕ
  | [], v => [v]
  | h :: t, v =>
    if i64_key v < i64_key h then v :: h :: t
    else if v = h then h :: t
    else h :: exp_insert t v

/-- src/explicit.rs `ExplicitStorage::with_settings`. -/
def ExplicitStorage.with_settings (s : Settings) : ExplicitStorage := ⟨s, []⟩

/-- src/explicit.rs `ExplicitStorage::set` (`value as i64` keeps the bit
pattern, which is what `buf` stores). -/
def ExplicitStorage.set (e : ExplicitStorage) (value : ℕ) : ExplicitStorage :=
  { e with buf := exp_insert e.buf value }

/-- src/explicit.rs `ExplicitStorage::is_full`. -/
def ExplicitStorage.is_full (e : ExplicitStorage) : Bool :=
  decide (e.buf.length > e.settings.explicit_threshold_value)

/-- src/explicit.rs `ExplicitStorage::len`. -/
def ExplicitStorage.len (e : ExplicitStorage) : ℕ := e.buf.length

/-- src/explicit.rs `ExplicitStorage::union_explicit` (`extend` inserts every
element of `other`). -/
def ExplicitStorage.union_explicit (e other : ExplicitStorage) : ExplicitStorage :=
  { e with buf := other.buf.foldl exp_insert e.buf }

/-- src/explicit.rs `ExplicitStorage::bytes_size`. -/
def ExplicitStorage.bytes_size (e : ExplicitStorage) : ℕ := 8 * e.buf.length

/-- src/explicit.rs `ExplicitStorage::to_bytes`: each value as 8 big-endian
bytes, in set-iteration order. -/
def ExplicitStorage.to_bytes_list (e : ExplicitStorage) : List ℕ :=
  (e.buf.map to_be_8).flatten

/-- src/explicit.rs `ExplicitStorage::from_bytes` payload loop: split the
buffer into 8-byte big-endian values; `none` models the out-of-bounds slice
panic when fewer than 8 bytes remain.  The fuel argument (always at least the
number of loop iterations plus one) makes the recursion structural. -/
def exp_chunks_fuel : ℕ → List ℕ → Option (List ℕ)
  | 0, _ => none
  | fuel + 1, bs =>
    if bs = [] then some []
    else if bs.length < 8 then none
    else
      match exp_chunks_fuel fuel (bs.drop 8) with
      | none => none
      | some r => some (from_be (bs.take 8) :: r)

/-- The payload loop of src/explicit.rs `ExplicitStorage::from_bytes`. -/
def exp_chunks (bs : List ℕ) : Option (List ℕ) :=
  exp_chunks_fuel (bs.length + 1) bs

/-- src/explicit.rs `ExplicitStorage::from_bytes` (panic-tracking). -/
def ExplicitStorage.from_bytes_p (s : Settings) (bs : List ℕ) :
    Option ExplicitStorage :=
  match exp_chunks bs with
  | none => none
  | some vs => some ⟨s, vs.foldl exp_insert []⟩

/-- src/sparse.rs `SparseRegisters`: a `BTreeMap<u32, u8>` modelled as a
sorted association list. -/
structure SparseRegisters where
  settings : Settings
  buf : List (ℕ × ℕ)
deriving DecidableEq

/-- src/sparse.rs `SparseRegisters::set_if_greater`'s map update
(`BTreeMap::entry`): insert when vacant, replace when the new value is
strictly greater. -/
def entry_set_if_greater : List (ℕ × ℕ) → ℕ → ℕ → List (ℕ × ℕ)
  | [], k, v => [(k, v)]
  | (k', v') :: t, k, v =>
    if k < k' then (k, v) :: (k', v') :: t
    else if k = k' then (if v' < v then (k, v) :: t else (k', v') :: t)
    else (k', v') :: entry_set_if_greater t k v

/-- `BTreeMap::insert` (unconditional overwrite) on the sorted-list model,
used by `SparseRegisters::from_bytes`. -/
def entry_insert : List (ℕ × ℕ) → ℕ → ℕ → List (ℕ × ℕ)
  | [], k, v => [(k, v)]
  | (k', v') :: t, k, v =>
    if k < k' then (k, v) :: (k', v') :: t
    else if k = k' then (k, v) :: t
    else (k', v') :: entry_insert t k v

/-- src/sparse.rs `SparseRegisters::with_settings`. -/
def SparseRegisters.with_settings (s : Settings) : SparseRegisters := ⟨s, []⟩

/-- src/sparse.rs `SparseRegisters::set_if_greater`: the value is masked with
`m_bits_mask as u8` (NOT with a `reg_width` mask). -/
def SparseRegisters.set_if_greater (sp : SparseRegisters) (reg_num value : ℕ) :
    SparseRegisters :=
  let value := value &&& (sp.settings.m_bits_mask % 256)
  { sp with buf := entry_set_if_greater sp.buf reg_num value }

/-- src/sparse.rs `SparseRegisters::set` (the `Registers::set` default
method). -/
def SparseRegisters.set (sp : SparseRegisters) (value : ℕ) : SparseRegisters :=
  match set_calc sp.settings.log_2m sp.settings.reg_width value with
  | none => sp
  | some (i, p_w) => sp.set_if_greater i p_w

/-- src/sparse.rs `SparseRegisters::is_full`. -/
def SparseRegisters.is_full (sp : SparseRegisters) : Bool :=
  match sp.settings.sparse_threshold with
  | some threshold => decide (threshold < (sp.buf.length : ℤ))
  | none => true

/-- src/sparse.rs `SparseRegisters::len`. -/
def SparseRegisters.len (sp : SparseRegisters) : ℕ := sp.buf.length

/-- src/sparse.rs `SparseRegisters::bytes_size`. -/
def SparseRegisters.bytes_size (sp : SparseRegisters) : ℕ :=
  divide_by_8_round_up ((sp.settings.log_2m + sp.settings.reg_width) * sp.buf.length)

/-- src/dense.rs `DenseRegisters`. -/
structure DenseRegisters where
  settings : Settings
  buf : List ℕ
deriving DecidableEq

/-- src/dense.rs `DenseRegisters::with_settings`: a zeroed buffer of
`ceil(m * reg_width / 8)` bytes. -/
def DenseRegisters.with_settings (s : Settings) : DenseRegisters :=
  ⟨s, List.replicate (divide_by_8_round_up (2 ^ s.log_2m * s.reg_width)) 0⟩

/-- src/dense.rs `DenseRegisters::get`. -/
def DenseRegisters.get (d : DenseRegisters) (reg_num : ℕ) : ℕ :=
  let p := calc_position reg_num d.settings.reg_width
  read_u8_bits d.buf p.1 p.2 d.settings.reg_width

/-- src/dense.rs `DenseRegisters::set_reg` (write without compare). -/
def DenseRegisters.set_reg (d : DenseRegisters) (reg_num value : ℕ) : DenseRegisters :=
  let p := calc_position reg_num d.settings.reg_width
  { d with buf := write_u8_bits d.buf p.1 p.2 value d.settings.reg_width }

/-- src/dense.rs `DenseRegisters::set_if_greater`: read, compare (with the
unmasked value), conditionally write. -/
def DenseRegisters.set_if_greater (d : DenseRegisters) (reg_num value : ℕ) :
    DenseRegisters :=
  let p := calc_position reg_num d.settings.reg_width
  let register := read_u8_bits d.buf p.1 p.2 d.settings.reg_width
  if register < value then
    { d with buf := write_u8_bits d.buf p.1 p.2 value d.settings.reg_width }
  else d

/-- src/dense.rs `DenseRegisters::set` (the `Registers::set` default method). -/
def DenseRegisters.set (d : DenseRegisters) (value : ℕ) : DenseRegisters :=
  match set_calc d.settings.log_2m d.settings.reg_width value with
  | none => d
  | some (i, p_w) => d.set_if_greater i p_w

/-- src/dense.rs `DenseRegisters::bytes_size`. -/
def DenseRegisters.bytes_size (d : DenseRegisters) : ℕ := d.buf.length

/-- src/sparse.rs `SparseRegisters::to_dense`: materialize a dense array with
`set_reg` per stored pair, using the given settings (or the sparse one's). -/
def SparseRegisters.to_dense (sp : SparseRegisters) (settings : Option Settings) :
    DenseRegisters :=
  sp.buf.foldl (fun d p => d.set_reg p.1 p.2)
    (DenseRegisters.with_settings (settings.getD sp.settings))

/-- src/sparse.rs `SparseRegisters::union_sparse`. -/
def SparseRegisters.union_sparse (sp other : SparseRegisters) : SparseRegisters :=
  other.buf.foldl (fun a p => a.set_if_greater p.1 p.2) sp

/-- src/sparse.rs `SparseRegisters::union_explicit` (iterates the stored
`u64` bit patterns through `set`). -/
def SparseRegisters.union_explicit (sp : SparseRegisters) (e : ExplicitStorage) :
    SparseRegisters :=
  e.buf.foldl (fun a v => a.set v) sp

/-- src/dense.rs `DenseRegisters::union_explicit`. -/
def DenseRegisters.union_explicit (d : DenseRegisters) (e : ExplicitStorage) :
    DenseRegisters :=
  e.buf.foldl (fun a v => a.set v) d

/-- src/dense.rs `DenseRegisters::union_sparse`. -/
def DenseRegisters.union_sparse (d : DenseRegisters) (sp : SparseRegisters) :
    DenseRegisters :=
  sp.buf.foldl (fun a p => a.set_if_greater p.1 p.2) d

/-- src/dense.rs `DenseRegisters::union_dense`: iterate all of `other`'s
registers (via its `RegisterIter`) through `set_if_greater`. -/
def DenseRegisters.union_dense (d other : DenseRegisters) : DenseRegisters :=
  (List.range (2 ^ other.settings.log_2m)).foldl
    (fun a i => a.set_if_greater i (other.get i)) d

/-- src/sparse.rs `SparseRegisters::to_bytes`: pack each `(reg_num, value)`
pair as a `log_2m + reg_width`-bit short word into a zeroed buffer of
`bytes_size` bytes. -/
def SparseRegisters.to_bytes_list (sp : SparseRegisters) : List ℕ :=
  let bits_per_register := sp.settings.log_2m + sp.settings.reg_width
  (sp.buf.enum.foldl
    (fun buf ip =>
      let p := calc_position ip.1 bits_per_register
      write_bits buf p.1 p.2 ((ip.2.1 <<< sp.settings.reg_width) ||| ip.2.2)
        bits_per_register)
    (List.replicate sp.bytes_size 0))

/-- The decode loop of src/sparse.rs `SparseRegisters::from_bytes`; `fuel`
bounds the iteration count (the Rust loop advances `offset` by
`bits_per_register ≥ 5` per step for validated settings). -/
def sparse_decode_loop (s : Settings) (bs : List ℕ) :
    ℕ → ℕ → ℕ → List (ℕ × ℕ) → List (ℕ × ℕ)
  | 0, _, _, acc => acc
  | fuel + 1, i, offset, acc =>
    let bits_per_register := s.log_2m + s.reg_width
    if offset + bits_per_register ≤ bs.length * 8 then
      let p := calc_position i bits_per_register
      let value := read_bits bs p.1 p.2 bits_per_register
      let reg_mask := 2 ^ s.reg_width - 1
      let reg_num := (value &&& (2 ^ 32 - 1 - reg_mask)) >>> s.reg_width
      let reg_value := value &&& reg_mask
      sparse_decode_loop s bs fuel (i + 1) (offset + bits_per_register)
        (entry_insert acc reg_num reg_value)
    else acc

/-- src/sparse.rs `SparseRegisters::from_bytes` (never panics: the loop
condition keeps every read in bounds).  `reg_num_mask = !reg_mask` on `u32`. -/
def SparseRegisters.from_bytes_t (s : Settings) (bs : List ℕ) : SparseRegisters :=
  ⟨s, sparse_decode_loop s bs (bs.length * 8 + 1) 0 0 []⟩

/-- src/dense.rs `DenseRegisters::from_bytes` (panic-tracking: the
`assert!(res.buf.len() >= buf.len())` aborts when the payload is longer than
the register array). -/
def DenseRegisters.from_bytes_p (s : Settings) (bs : List ℕ) :
    Option DenseRegisters :=
  let res := DenseRegisters.with_settings s
  if res.buf.length < bs.length then none
  else some ⟨s, bs ++ res.buf.drop bs.length⟩

/-- src/lib.rs `Hll`: the four-variant storage automaton. -/
inductive Hll where
  | Empty (s : Settings)
  | Explicit (e : ExplicitStorage)
  | Sparse (sp : SparseRegisters)
  | Dense (d : DenseRegisters)
deriving DecidableEq

/-- src/lib.rs `HllError`. -/
inductive HllError where
  | Settings (e : SettingsError)
  | Version (v : ℕ)
deriving DecidableEq

deriving instance DecidableEq for Except

/-- src/lib.rs `Hll::new`. -/
def Hll.new (s : Settings) : Hll := .Empty s

/-- src/lib.rs `Hll::settings`. -/
def Hll.settings : Hll → Settings
  | .Empty s => s
  | .Explicit e => e.settings
  | .Sparse sp => sp.settings
  | .Dense d => d.settings

/-- src/lib.rs `Hll::is_full`. -/
def Hll.is_full : Hll → Bool
  | .Empty _ => false
  | .Explicit e => e.is_full
  | .Sparse sp => sp.is_full
  | .Dense _ => false

/-- src/lib.rs `Hll::type_id`. -/
def Hll.type_id : Hll → ℕ
  | .Empty _ => 1
  | .Explicit _ => 2
  | .Sparse _ => 3
  | .Dense _ => 4

/-- src/lib.rs `Hll::add_raw` restricted to the Sparse and Dense arms: this is
what the promotion loop in `ExplicitStorage::as_registers` executes (its
storage starts Sparse or Dense and can only move Sparse → Dense). -/
def Hll.add_raw_sd (h : Hll) (value : ℕ) : Hll :=
  if value = 0 then h
  else
    match h with
    | .Sparse sp =>
      let sp := sp.set value
      if sp.is_full then .Dense (sp.to_dense none) else .Sparse sp
    | .Dense d => .Dense (d.set value)
    | x => x

/-- src/explicit.rs `ExplicitStorage::as_registers`: promote to Sparse (when
sparse is enabled) or Dense, re-ingesting every stored value through the
standard add path. -/
def ExplicitStorage.as_registers (e : ExplicitStorage) : Hll :=
  let storage : Hll :=
    match e.settings.sparse_threshold with
    | some _ => .Sparse (SparseRegisters.with_settings e.settings)
    | none => .Dense (DenseRegisters.with_settings e.settings)
  e.buf.foldl Hll.add_raw_sd storage

/-- src/lib.rs `Hll::add_raw`. -/
def Hll.add_raw (h : Hll) (value : ℕ) : Hll :=
  if value = 0 then h
  else
    let h : Hll :=
      match h with
      | .Empty s =>
        if s.explicit_threshold_value > 0 then
          .Explicit (ExplicitStorage.with_settings s)
        else if s.sparse_threshold.isSome then
          .Sparse (SparseRegisters.with_settings s)
        else
          .Dense (DenseRegisters.with_settings s)
      | x => x
    match h with
    | .Explicit e =>
      let e := e.set value
      if e.is_full then e.as_registers else .Explicit e
    | .Sparse sp =>
      let sp := sp.set value
      if sp.is_full then .Dense (sp.to_dense none) else .Sparse sp
    | .Dense d => .Dense (d.set value)
    | x => x

/-- src/lib.rs `Hll::upgrade`. -/
def Hll.upgrade : Hll → Hll
  | .Empty s => .Empty s
  | .Explicit e => e.as_registers
  | .Sparse sp => .Dense (sp.to_dense none)
  | .Dense d => .Dense d

/-- The Empty arm of src/lib.rs `Hll::union`: `*self = ...` over `other`. -/
def Hll.empty_union (s : Settings) : Hll → Hll
  | .Sparse sr =>
    (match s.sparse_threshold with
     | some sparse_threshold =>
       if sparse_threshold < (sr.len : ℤ) then .Dense (sr.to_dense (some s))
       else .Sparse sr
     | none => .Dense (sr.to_dense (some s)))
  | o => o

/-- src/lib.rs `Hll::union`, with a fuel argument for the one level of
recursion in the Explicit × (Sparse | Dense) arms (`as_registers` never
returns an Explicit or Empty value, so fuel 2 suffices; fuel 0 is
unreachable). -/
def Hll.union_f : ℕ → Bool → Hll → Hll → Except SettingsError Hll
  | 0, _, self, _ => .ok self
  | fuel + 1, strict, self, other =>
    let chk : Except SettingsError Unit :=
      if strict then self.settings.settings_check other.settings else .ok ()
    match chk with
    | .error e => .error e
    | .ok _ =>
      let res : Except SettingsError Hll :=
        match self, other with
        | .Empty s, o => .ok (Hll.empty_union s o)
        | .Explicit lhs, .Empty _ => .ok (.Explicit lhs)
        | .Explicit lhs, .Explicit rhs => .ok (.Explicit (lhs.union_explicit rhs))
        | .Explicit lhs, o => Hll.union_f fuel strict lhs.as_registers o
        | .Sparse lhs, .Empty _ => .ok (.Sparse lhs)
        | .Sparse lhs, .Explicit e => .ok (.Sparse (lhs.union_explicit e))
        | .Sparse lhs, .Sparse rhs => .ok (.Sparse (lhs.union_sparse rhs))
        | .Sparse lhs, .Dense rhs => .ok (.Dense ((lhs.to_dense none).union_dense rhs))
        | .Dense lhs, .Empty _ => .ok (.Dense lhs)
        | .Dense lhs, .Explicit e => .ok (.Dense (lhs.union_explicit e))
        | .Dense lhs, .Sparse rhs => .ok (.Dense (lhs.union_sparse rhs))
        | .Dense lhs, .Dense rhs => .ok (.Dense (lhs.union_dense rhs))
      match res with
      | .error e => .error e
      | .ok h => .ok (if h.is_full then h.upgrade else h)

/-- src/lib.rs `Hll::union` (mutation modelled as returning the new self). -/
def Hll.union (strict : Bool) (self other : Hll) : Except SettingsError Hll :=
  Hll.union_f 2 strict self other

/-- src/lib.rs `Hll::to_bytes`: 3 header bytes followed by the
variant-specific payload. -/
def Hll.to_bytes (h : Hll) : List ℕ :=
  let s := h.settings
  let b0 := (1 <<< 4) ||| h.type_id
  let b1 := (((s.reg_width - 1) <<< 5) ||| s.log_2m) % 256
  let b2 := s.pack_cutoff_byte
  let payload : List ℕ :=
    match h with
    | .Empty _ => []
    | .Explicit e => e.to_bytes_list
    | .Sparse sp => sp.to_bytes_list
    | .Dense d => d.buf
  b0 :: b1 :: b2 :: payload

/-- src/lib.rs `Hll::from_bytes` (panic-tracking: `none` models an
out-of-bounds panic, `some (.error _)` a returned `HllError`). -/
def Hll.from_bytes (buf : List ℕ) : Option (Except HllError Hll) :=
  match buf.get? 0 with
  | none => none
  | some b0 =>
    let version := b0 >>> 4
    let type_id := b0 &&& 0x0F
    if version ≠ 1 then some (.error (.Version version))
    else
      match buf.get? 1 with
      | none => none
      | some b1 =>
        match buf.get? 2 with
        | none => none
        | some b2 =>
          let reg_width := (b1 >>> 5) + 1
          let log_2m := b1 &&& 0x1F
          let u := Settings.unpack_cutoff_byte b2
          match Settings.new log_2m reg_width u.2 u.1 with
          | .error e => some (.error (.Settings e))
          | .ok settings =>
            let payload := buf.drop 3
            match type_id with
            | 1 => some (.ok (.Empty settings))
            | 2 =>
              match ExplicitStorage.from_bytes_p settings payload with
              | none => none
              | some e => some (.ok (.Explicit e))
            | 3 => some (.ok (.Sparse (SparseRegisters.from_bytes_t settings payload)))
            | 4 =>
              match DenseRegisters.from_bytes_p settings payload with
              | none => none
              | some d => some (.ok (.Dense d))
            | t => some (.error (.Version t))

/-- src/settings.rs `Settings::alpha_m_squared` (cached field
`alpha_msquared`), modelled over `ℝ`. -/
noncomputable def Settings.alpha_msquared (s : Settings) : ℝ :=
  let m : ℝ := (2 ^ s.log_2m : ℕ)
  if s.log_2m = 4 then 0.673 * m * m
  else if s.log_2m = 5 then 0.697 * m * m
  else if s.log_2m = 6 then 0.709 * m * m
  else (0.7213 / (1 + 1.079 / m)) * m * m

/-- src/settings.rs `Settings::small_estimator_cutoff` (cached field):
`m * 5 / 2`. -/
noncomputable def Settings.small_estimator_cutoff (s : Settings) : ℝ :=
  ((2 ^ s.log_2m : ℕ) : ℝ) * 5 / 2

/-- src/settings.rs `Settings::two_to_l` (cached field). -/
noncomputable def Settings.two_to_l (s : Settings) : ℝ :=
  let max_register_value := 2 ^ s.reg_width - 1
  let pw_bits := max_register_value - 1
  let total_bits := pw_bits + s.log_2m
  (2 : ℝ) ^ total_bits

/-- src/settings.rs `Settings::large_estimator_cutoff` (cached field):
`two_to_l / 30`. -/
noncomputable def Settings.large_estimator_cutoff (s : Settings) : ℝ :=
  s.two_to_l / 30

/-- src/sparse.rs `SparseRegisters::indicator`: `Σ 2^(-v)` over stored values
plus one per absent register; returns `(sum, number_of_zeros)`. -/
noncomputable def SparseRegisters.indicator (sp : SparseRegisters) : ℝ × ℕ :=
  let number_of_zeros := 2 ^ sp.settings.log_2m - sp.buf.length
  ((sp.buf.map (fun p => (1 : ℝ) / (2 : ℝ) ^ p.2)).sum + (number_of_zeros : ℝ),
    number_of_zeros)

/-- src/dense.rs `DenseRegisters::indicator`. -/
noncomputable def DenseRegisters.indicator (d : DenseRegisters) : ℝ × ℕ :=
  (∑ i ∈ Finset.range (2 ^ d.settings.log_2m), (1 : ℝ) / (2 : ℝ) ^ (d.get i),
   ((List.range (2 ^ d.settings.log_2m)).filter (fun i => d.get i = 0)).length)

/-- The estimator-and-correction tail of src/lib.rs `Hll::cardinality`
(everything after `indicator()`), on the `(sum, zeros)` pair.  `ceil() as u64`
is `Int.toNat ∘ Int.ceil` (the cast saturates negative values to 0). -/
noncomputable def Hll.card_est (s : Settings) (p : ℝ × ℕ) : ℕ :=
  let sum := p.1
  let num_of_zeros := p.2
  let estimator := s.alpha_msquared / sum
  if num_of_zeros ≠ 0 ∧ estimator < s.small_estimator_cutoff then
    let m : ℝ := (2 ^ s.log_2m : ℕ)
    (⌈m * Real.log (m / (num_of_zeros : ℝ))⌉).toNat
  else if estimator ≤ s.large_estimator_cutoff then
    (⌈estimator⌉).toNat
  else
    (⌈(-1 : ℝ) * s.two_to_l * Real.log (1 - estimator / s.two_to_l)⌉).toNat

/-- src/lib.rs `Hll::cardinality`. -/
noncomputable def Hll.cardinality : Hll → ℕ
  | .Empty _ => 0
  | .Explicit e => e.len
  | .Sparse sp => Hll.card_est sp.settings sp.indicator
  | .Dense d => Hll.card_est d.settings d.indicator

/-- Validity of a `Settings` value: the ranges `Settings::validate` enforces,
plus non-negativity of the sparse threshold (true of every threshold
`Settings::new` computes; the integration tests only ever override it with a
positive value). -/
def Settings.valid (s : Settings) : Prop :=
  4 ≤ s.log_2m ∧ s.log_2m ≤ 31 ∧ 1 ≤ s.reg_width ∧ s.reg_width ≤ 8 ∧
    0 ≤ s.sparse_threshold.getD 0

instance (s : Settings) : Decidable s.valid := by
  unfold Settings.valid; infer_instance

/-- Whether an `Hll` is in the `Empty` variant. -/
def Hll.is_empty_variant : Hll → Bool
  | .Empty _ => true
  | _ => false

/-- Whether an `Hll` is in the `Sparse` or `Dense` variant. -/
def Hll.is_sd_variant : Hll → Bool
  | .Sparse _ => true
  | .Dense _ => true
  | _ => false

/-! ## Theorems -/

theorem lookup_eq_none_of_forall_lt {l : List (ℕ × ℕ)} {k : ℕ}
    (h : ∀ p ∈ l, k < p.1) : l.lookup k = none := by
  induction l with
  | nil => rfl
  | cons p t ih =>
    rw [List.lookup_cons]
    have hk : k ≠ p.1 := Nat.ne_of_lt (h p (by simp))
    simp only [beq_eq_false_iff_ne.mpr hk]
    exact ih (fun q hq => h q (by simp [hq]))

theorem lookup_entry_set_if_greater (l : List (ℕ × ℕ)) (k v : ℕ)
    (hsort : l.Pairwise (fun a b => a.1 < b.1)) :
    (entry_set_if_greater l k v).lookup k
      = some (max ((l.lookup k).getD 0) v) := by
  induction l with
  | nil => simp [entry_set_if_greater]
  | cons p t ih =>
    obtain ⟨k', v'⟩ := p
    rw [List.pairwise_cons] at hsort
    by_cases h1 : k < k'
    · have hnone : ((k', v') :: t).lookup k = none := by
        apply lookup_eq_none_of_forall_lt
        intro q hq
        rcases List.mem_cons.mp hq with h | h
        · rw [h]; exact h1
        · exact lt_trans h1 (hsort.1 q h)
      simp [entry_set_if_greater, h1, hnone]
    · by_cases h2 : k = k'
      · subst h2
        by_cases h3 : v' < v
        · simp [entry_set_if_greater, h1, h3, List.lookup_cons]
          omega
        · simp [entry_set_if_greater, h1, h3, List.lookup_cons]
          omega
      · have hne : (k == k') = false := beq_eq_false_iff_ne.mpr h2
        simp only [entry_set_if_greater, if_neg h1, if_neg h2, List.lookup_cons, hne]
        exact ih hsort.2

theorem mem_entry_set_if_greater {l : List (ℕ × ℕ)} {k v : ℕ} {p : ℕ × ℕ}
    (h : p ∈ entry_set_if_greater l k v) : p ∈ l ∨ p = (k, v) := by
  induction l with
  | nil => simp [entry_set_if_greater] at h; simp [h]
  | cons q t ih =>
    obtain ⟨k', v'⟩ := q
    simp only [entry_set_if_greater] at h
    by_cases h1 : k < k'
    · rw [if_pos h1] at h
      rcases List.mem_cons.mp h with h | h
      · exact Or.inr h
      · exact Or.inl h
    · rw [if_neg h1] at h
      by_cases h2 : k = k'
      · rw [if_pos h2] at h
        by_cases h3 : v' < v
        · rw [if_pos h3] at h
          rcases List.mem_cons.mp h with h | h
          · exact Or.inr h
          · exact Or.inl (List.mem_cons_of_mem _ h)
        · rw [if_neg h3] at h
          exact Or.inl h
      · rw [if_neg h2] at h
        rcases List.mem_cons.mp h with h | h
        · exact Or.inl (by rw [h]; exact List.mem_cons_self _ _)
        · rcases ih h with hh | hh
          · exact Or.inl (List.mem_cons_of_mem _ hh)
          · exact Or.inr hh

theorem m_bits_mask_u8 (s : Settings) :
    s.m_bits_mask % 256 = 2 ^ min s.log_2m 8 - 1 := by
  unfold Settings.m_bits_mask
  by_cases h : s.log_2m ≤ 8
  · rw [Nat.min_eq_left h]
    apply Nat.mod_eq_of_lt
    have : (2:ℕ) ^ s.log_2m ≤ 2 ^ 8 := Nat.pow_le_pow_right (by norm_num) h
    omega
  · rw [Nat.min_eq_right (by omega)]
    have : (2:ℕ) ^ s.log_2m = 256 * 2 ^ (s.log_2m - 8) := by
      rw [show (256:ℕ) = 2 ^ 8 by norm_num, ← pow_add]
      congr 1
      omega
    rw [this]
    have h2 : 256 * 2 ^ (s.log_2m - 8) - 1 = 256 * (2 ^ (s.log_2m - 8) - 1) + 255 := by
      have : (1:ℕ) ≤ 2 ^ (s.log_2m - 8) := Nat.one_le_two_pow
      omega
    rw [h2]
    omega

/-- C1 (counterexample): with `log_2m = 11`, `reg_width = 5`, the value passed
to `set_if_greater` is masked with `m_bits_mask as u8 = 0xFF`, so
`set_if_greater(0, 255)` stores `255`, not `255 & ((1 << 5) - 1) = 31`; the
stored value retains bits at position `reg_width = 5` and above. -/
theorem c1_counterexample :
    (((SparseRegisters.with_settings ⟨11, 5, 0, some 512⟩).set_if_greater 0 255).buf.lookup 0
        = some 255)
    ∧ 255 ≠ 255 &&& (2 ^ (5:ℕ) - 1)
    ∧ ¬ (255 < 2 ^ (5:ℕ)) := by decide

/-- C1 (amended): `SparseRegisters::set_if_greater(i, v)` masks `v` with the
low 8 bits of `m_bits_mask` — i.e. to `min(log_2m, 8)` bits, not to
`reg_width` bits — before inserting (when `i` is absent) or replacing (when
the new masked value is strictly greater); no stored value retains bits at
position `min(log_2m, 8)` or above (a bound that is weaker than the claimed
`reg_width` whenever `log_2m > reg_width`). -/
theorem c1_amended (sp : SparseRegisters) (i v : ℕ)
    (hsort : sp.buf.Pairwise (fun a b => a.1 < b.1))
    (hbound : ∀ p ∈ sp.buf, p.2 < 2 ^ min sp.settings.log_2m 8) :
    ((sp.set_if_greater i v).buf.lookup i
        = some (max ((sp.buf.lookup i).getD 0) (v &&& (sp.settings.m_bits_mask % 256))))
    ∧ ∀ p ∈ (sp.set_if_greater i v).buf, p.2 < 2 ^ min sp.settings.log_2m 8 := by
  constructor
  · exact lookup_entry_set_if_greater sp.buf i _ hsort
  · intro p hp
    rcases mem_entry_set_if_greater hp with h | h
    · exact hbound p h
    · subst h
      simp only
      rw [m_bits_mask_u8]
      have : 255 &&& (2 ^ min sp.settings.log_2m 8 - 1) ≤ 2 ^ min sp.settings.log_2m 8 - 1 :=
        Nat.and_le_right
      have h1 : v &&& (2 ^ min sp.settings.log_2m 8 - 1) ≤ 2 ^ min sp.settings.log_2m 8 - 1 :=
        Nat.and_le_right
      have h2 : (0:ℕ) < 2 ^ min sp.settings.log_2m 8 := Nat.pos_pow_of_pos _ (by norm_num)
      omega

/-- C1 (witness for the amended theorem at a concrete input). -/
theorem c1_amended_witness :
    (((⟨⟨11, 5, 0, some 512⟩, [(2, 3)]⟩ : SparseRegisters).set_if_greater 2 5).buf.lookup 2
        = some (max ((([(2, 3)] : List (ℕ × ℕ)).lookup 2).getD 0)
            (5 &&& ((⟨11, 5, 0, some 512⟩ : Settings).m_bits_mask % 256))))
    ∧ ∀ p ∈ ((⟨⟨11, 5, 0, some 512⟩, [(2, 3)]⟩ : SparseRegisters).set_if_greater 2 5).buf,
        p.2 < 2 ^ min (⟨11, 5, 0, some 512⟩ : Settings).log_2m 8 :=
  c1_amended ⟨⟨11, 5, 0, some 512⟩, [(2, 3)]⟩ 2 5 (by decide) (by decide)

/-- C2 (code bug): serialize–deserialize–serialize is not byte-identical.
For the Empty HLL with `explicit_threshold = 2`, `to_bytes` writes cutoff
byte `0x01` (`pack_cutoff_byte` computes `floor(log2 t)`), `from_bytes`
decodes threshold `1 << (1 - 1) = 1`, and re-serialization writes cutoff byte
`0x00`.  The deserialized value has the same (Empty) variant. -/
theorem c2_roundtrip_bug :
    Hll.to_bytes (.Empty ⟨11, 5, 2, none⟩) = [0x11, 0x8B, 0x01]
    ∧ Hll.from_bytes [0x11, 0x8B, 0x01] = some (.ok (.Empty ⟨11, 5, 1, none⟩))
    ∧ Hll.to_bytes (.Empty ⟨11, 5, 1, none⟩) = [0x11, 0x8B, 0x00]
    ∧ Hll.is_empty_variant (.Empty (⟨11, 5, 1, none⟩ : Settings))
        = Hll.is_empty_variant (.Empty (⟨11, 5, 2, none⟩ : Settings))
    ∧ [0x11, 0x8B, 0x00] ≠ [0x11, 0x8B, 0x01] := by decide

/-- C3 (code bug): for `explicit_threshold = 4`, `pack_cutoff_byte` writes
threshold code `2 = floor(log2 4)`, not `3 = 1 + floor(log2 4)` as the claim
(and the decoder) require; `unpack_cutoff_byte` indeed recovers
`1 << (c - 1)`, so decoding code `2` yields `2 ≠ 4`. -/
theorem c3_pack_cutoff_bug :
    Settings.pack_cutoff_byte ⟨11, 5, 4, none⟩ = 2
    ∧ (2:ℕ) ≠ 1 + 2
    ∧ Settings.unpack_cutoff_byte 2 = (false, 2)
    ∧ ((2:ℤ) ≠ 4) := by decide

/-- C6 (counterexample): byte 1 of the serialized empty Dense HLL with
`log_2m = 11`, `reg_width = 5` is `((5-1) << 5) | 11 = 0x8B`, not `0x9B` as
the claim states (`0x9B` would decode to `log_2m = 27`). -/
theorem c6_counterexample :
    (Hll.to_bytes (.Dense (DenseRegisters.with_settings ⟨11, 5, 0, none⟩))).get? 1
        = some 0x8B
    ∧ (0x8B : ℕ) ≠ 0x9B := by
  exact ⟨rfl, by decide⟩

/-- C6 (amended): serializing an empty Dense HLL with `log_2m = 11`,
`reg_width = 5`, `explicit_threshold = 0`, sparse disabled produces exactly
`3 + ceil(5 * 2048 / 8) = 1283` bytes, whose first three bytes are
`0x14, 0x8B, 0x00` and whose remaining payload bytes are all zero. -/
theorem c6_amended :
    Hll.to_bytes (.Dense (DenseRegisters.with_settings ⟨11, 5, 0, none⟩))
        = 0x14 :: 0x8B :: 0x00 :: List.replicate 1280 0
    ∧ (Hll.to_bytes (.Dense (DenseRegisters.with_settings ⟨11, 5, 0, none⟩))).length = 1283
    ∧ 1283 = 3 + divide_by_8_round_up (5 * 2 ^ 11) := by
  have h0 : Hll.to_bytes (.Dense (DenseRegisters.with_settings ⟨11, 5, 0, none⟩))
      = 0x14 :: 0x8B :: 0x00 :: List.replicate (divide_by_8_round_up (2 ^ 11 * 5)) 0 := rfl
  have hcnt : divide_by_8_round_up (2 ^ 11 * 5) = 1280 := by decide
  refine ⟨by rw [h0, hcnt], ?_, by decide⟩
  rw [h0, hcnt]
  simp only [List.length_cons, List.length_replicate]

theorem exp_chunks_fuel_none :
    ∀ fuel (bs : List ℕ), bs.length < fuel → bs.length % 8 ≠ 0 →
      exp_chunks_fuel fuel bs = none := by
  intro fuel
  induction fuel with
  | zero => intro bs hlen _; omega
  | succ n ih =>
    intro bs hlen hmod
    have hne : bs ≠ [] := by
      intro h
      rw [h] at hmod
      simp at hmod
    simp only [exp_chunks_fuel, if_neg hne]
    by_cases h8 : bs.length < 8
    · rw [if_pos h8]
    · rw [if_neg h8]
      have hrec : exp_chunks_fuel n (bs.drop 8) = none := by
        apply ih
        · simp only [List.length_drop]; omega
        · simp only [List.length_drop]; omega
      rw [hrec]

theorem exp_chunks_none (bs : List ℕ) (h : bs.length % 8 ≠ 0) :
    exp_chunks bs = none :=
  exp_chunks_fuel_none (bs.length + 1) bs (by omega) h

/-- C9 (counterexample): `from_bytes` of the 1-byte buffer `[0x24]` does not
panic: the version nibble is `2 ≠ 1`, so it returns `Err(Version(2))` before
ever touching bytes 1 and 2.  "Any buffer shorter than 3 bytes causes an
out-of-bounds index" is therefore false. -/
theorem c9_counterexample :
    Hll.from_bytes [0x24] = some (.error (.Version 2))
    ∧ ([0x24] : List ℕ).length < 3 := by decide

/-- C9 (amended): `Hll::from_bytes` panics instead of returning an `HllError`
on some inputs, so deserialization of malformed input is not total — but the
sub-3-byte panic only happens when the buffer is empty or its version nibble
is 1 (otherwise a `Version` error is returned first).  Concretely: (a) every
buffer of byte values shorter than 3 bytes that is empty or starts with
version nibble 1 hits an out-of-bounds index in the header read (`none` in
the panic-tracking model); (b) every Explicit-typed blob (valid header, any
in-range geometry byte `b1`, any cutoff byte) whose payload length is not a
multiple of 8 hits an out-of-bounds slice in payload decoding. -/
theorem c9_amended :
    (∀ bs : List ℕ, bs.length < 3 → (bs = [] ∨ bs.headD 0 >>> 4 = 1) →
        Hll.from_bytes bs = none)
    ∧ (∀ b1 b2 payload : _, b1 < 256 → 4 ≤ b1 &&& 0x1F →
        (payload : List ℕ).length % 8 ≠ 0 →
        Hll.from_bytes (0x12 :: b1 :: b2 :: payload) = none) := by
  constructor
  · intro bs hlen hver
    match bs, hlen with
    | [], _ => rfl
    | [b0], _ =>
      have hv : b0 >>> 4 = 1 := by
        rcases hver with h | h
        · exact absurd h (by simp)
        · simpa using h
      simp [Hll.from_bytes, hv]
    | [b0, b1], _ =>
      have hv : b0 >>> 4 = 1 := by
        rcases hver with h | h
        · exact absurd h (by simp)
        · simpa using h
      simp [Hll.from_bytes, hv]
    | b0 :: b1 :: b2 :: rest, hlen =>
      exact absurd hlen (by simp only [List.length_cons]; omega)
  · intro b1 b2 payload hb1 hlog hmod
    have hlog31 : b1 &&& 0x1F ≤ 31 := Nat.le_of_lt_succ (by
      have : b1 &&& 0x1F < 2 ^ 5 := Nat.and_lt_two_pow b1 (by norm_num)
      omega)
    have hrw : (b1 >>> 5) + 1 ≤ 8 := by
      have : b1 >>> 5 = b1 / 2 ^ 5 := Nat.shiftRight_eq_div_pow b1 5
      omega
    have hvalid : (⟨b1 &&& 0x1F, (b1 >>> 5) + 1, (Settings.unpack_cutoff_byte b2).2,
        if (Settings.unpack_cutoff_byte b2).1 then
          some (Settings.calculate_sparse_threshold (b1 &&& 0x1F) ((b1 >>> 5) + 1))
        else none⟩ : Settings).validate = .ok () := by
      unfold Settings.validate
      rw [if_neg (not_not_intro ⟨hlog, hlog31⟩),
        if_neg (not_not_intro ⟨Nat.succ_le_succ (Nat.zero_le _), hrw⟩)]
    simp [Hll.from_bytes, Settings.new, hvalid, ExplicitStorage.from_bytes_p,
      exp_chunks_none payload hmod]

/-- C9 (witness for the amended theorem at concrete inputs): a 1-byte buffer
with version nibble 1 panics, and an Explicit blob with a 4-byte payload
panics. -/
theorem c9_amended_witness :
    Hll.from_bytes [0x11] = none
    ∧ Hll.from_bytes [0x12, 0x8B, 0x00, 0, 0, 0, 0] = none :=
  ⟨c9_amended.1 [0x11] (by decide) (Or.inr (by decide)),
   c9_amended.2 0x8B 0x00 [0, 0, 0, 0] (by decide) (by decide) (by decide)⟩

theorem getD_set_self {l : List ℕ} {i a : ℕ} (h : i < l.length) :
    (l.set i a).getD i 0 = a := by
  simp [List.getD_eq_getElem?_getD, List.getElem?_set_self h]

theorem getD_set_ne {l : List ℕ} {i j a : ℕ} (h : i ≠ j) :
    (l.set i a).getD j 0 = l.getD j 0 := by
  simp [List.getD_eq_getElem?_getD, List.getElem?_set_ne h]

theorem read_write_u8_within (buf : List ℕ) (idx pos v n : ℕ)
    (h : pos + n ≤ 8) (hn1 : 1 ≤ n) (hv : v < 2 ^ n)
    (hidx : idx < buf.length) :
    read_u8_bits (write_u8_bits buf idx pos v n) idx pos n = v := by
  unfold read_u8_bits write_u8_bits
  rw [if_pos h, if_pos h]
  simp only
  rw [getD_set_self hidx]
  set off := 8 - (pos + n) with hoff
  have hoffn : off + n ≤ 8 := by omega
  rw [show (256:ℕ) = 2 ^ 8 by norm_num, show (255:ℕ) = 2 ^ 8 - 1 by norm_num]
  apply Nat.eq_of_testBit_eq
  intro j
  by_cases hj : j < n
  · have hk8 : off + j < 8 := by omega
    simp only [Nat.testBit_and, Nat.testBit_shiftRight, Nat.testBit_or,
      Nat.testBit_mod_two_pow, Nat.testBit_shiftLeft, Nat.testBit_xor,
      Nat.testBit_two_pow_sub_one, Nat.add_sub_cancel_left, ge_iff_le,
      Nat.le_add_right, decide_True]
    simp [hj, hk8]
  · have hv' : v.testBit j = false := Nat.testBit_lt_two_pow (by
      calc v < 2 ^ n := hv
        _ ≤ 2 ^ j := Nat.pow_le_pow_right (by norm_num) (by omega))
    simp only [Nat.testBit_and, Nat.testBit_two_pow_sub_one, hv']
    simp [hj]

theorem read_write_u8_cross (buf : List ℕ) (idx pos v n : ℕ)
    (h : ¬ (pos + n ≤ 8)) (hpos : pos < 8) (hn8 : n ≤ 8) (hv : v < 2 ^ n)
    (hidx1 : idx + 1 < buf.length) :
    read_u8_bits (write_u8_bits buf idx pos v n) idx pos n = v := by
  have hidx : idx < buf.length := by omega
  unfold read_u8_bits write_u8_bits
  rw [if_neg h, if_neg h]
  simp only
  rw [getD_set_ne (by omega : idx + 1 ≠ idx),
    getD_set_self (by simpa using hidx),
    getD_set_self (by simpa using hidx1)]
  set nUp := 8 - pos with hnUp
  set nLo := n - nUp with hnLo
  have h1 : 1 ≤ nUp := by omega
  have h2 : 1 ≤ nLo := by omega
  have h3 : nUp + nLo = n := by omega
  have h4 : nLo ≤ 7 := by omega
  rw [show (256:ℕ) = 2 ^ 8 by norm_num, show (255:ℕ) = 2 ^ 8 - 1 by norm_num]
  apply Nat.eq_of_testBit_eq
  intro j
  simp only [Nat.testBit_or, Nat.testBit_and, Nat.testBit_mod_two_pow,
    Nat.testBit_shiftLeft, Nat.testBit_shiftRight, Nat.testBit_xor,
    Nat.testBit_two_pow_sub_one, ge_iff_le]
  by_cases hj1 : j < nLo
  · have e1 : ¬ (nLo ≤ j) := by omega
    have e2 : 8 - nLo + j < 8 := by omega
    have e3 : nLo + (8 - nLo + j) ≥ 8 := by omega
    have e4 : 8 - nLo ≤ 8 - nLo + j := by omega
    have e5 : 8 - nLo + j - (8 - nLo) = j := by omega
    simp only [e5]
    simp [e1, e2, e4, Nat.testBit_lt_two_pow
      (show (2:ℕ)^8 - 1 < 2 ^ (nLo + (8 - nLo + j)) by
        have : (2:ℕ)^8 - 1 < 2 ^ 8 := by norm_num
        calc (2:ℕ)^8 - 1 < 2 ^ 8 := this
          _ ≤ 2 ^ (nLo + (8 - nLo + j)) := Nat.pow_le_pow_right (by norm_num) (by omega))]
    intro _ hcon
    exact absurd hcon (by omega)
  · by_cases hj2 : j < n
    · have e1 : nLo ≤ j := by omega
      have e2 : j < 8 := by omega
      have e3 : j - nLo < nUp := by omega
      have e4 : nLo + (j - nLo) = j := by omega
      have e5 : ¬ (8 - nLo + j < 8) := by omega
      have e6 : nLo + (8 - nLo + j) ≥ 8 := by omega
      simp only [e4]
      simp [e1, e2, e3, e5, Nat.testBit_lt_two_pow
        (show (2:ℕ)^8 - 1 < 2 ^ (nLo + (8 - nLo + j)) by
          calc (2:ℕ)^8 - 1 < 2 ^ 8 := by norm_num
            _ ≤ 2 ^ (nLo + (8 - nLo + j)) := Nat.pow_le_pow_right (by norm_num) (by omega))]
      simp [show j - nLo < 8 by omega, show ¬ (nLo + (8 - nLo + j) < 8) by omega]
    · have hvj : v.testBit j = false := Nat.testBit_lt_two_pow (by
        calc v < 2 ^ n := hv
          _ ≤ 2 ^ j := Nat.pow_le_pow_right (by norm_num) (by omega))
      have e1 : ¬ (j - nLo < nUp) := by omega
      have e2 : ¬ (8 - nLo + j < 8) := by omega
      have e3 : nLo + (8 - nLo + j) ≥ 8 := by omega
      simp [hvj, e1, e2, Nat.testBit_lt_two_pow
        (show (2:ℕ)^8 - 1 < 2 ^ (nLo + (8 - nLo + j)) by
          calc (2:ℕ)^8 - 1 < 2 ^ 8 := by norm_num
            _ ≤ 2 ^ (nLo + (8 - nLo + j)) := Nat.pow_le_pow_right (by norm_num) (by omega))]
      intro _
      omega

theorem read_write_u8 (buf : List ℕ) (idx pos v n : ℕ)
    (hpos : pos < 8) (hn1 : 1 ≤ n) (hn8 : n ≤ 8) (hv : v < 2 ^ n)
    (hin : pos + n ≤ 8 → idx < buf.length)
    (hcross : 8 < pos + n → idx + 1 < buf.length) :
    read_u8_bits (write_u8_bits buf idx pos v n) idx pos n = v := by
  by_cases h : pos + n ≤ 8
  · exact read_write_u8_within buf idx pos v n h hn1 hv (hin h)
  · exact read_write_u8_cross buf idx pos v n h hpos hn8 hv (hcross (by omega))


/-- C5 (counterexample): Dense `set_if_greater` compares the register with the
UNMASKED value and `write_u8_bits` silently drops the high bits, so with
`reg_width = 5`, a register holding 3 and `v = 0x20`, the comparison
`3 < 0x20` passes and the stored field becomes `0x20`'s low five bits `= 0`:
`get` returns `0`, not `max(3, 0x20 & 31) = 3`. -/
theorem c5_counterexample :
    (((DenseRegisters.with_settings ⟨4, 5, 0, none⟩).set_if_greater 0 3).set_if_greater
        0 0x20).get 0 = 0
    ∧ ((DenseRegisters.with_settings ⟨4, 5, 0, none⟩).set_if_greater 0 3).get 0 = 3
    ∧ ¬ ((((DenseRegisters.with_settings ⟨4, 5, 0, none⟩).set_if_greater 0 3).set_if_greater
              0 0x20).get 0
          = max (((DenseRegisters.with_settings ⟨4, 5, 0, none⟩).set_if_greater 0 3).get 0)
              (0x20 &&& (2 ^ (5:ℕ) - 1))) := by decide

/-- C5 (amended): for every DenseRegisters state whose buffer has the size
`with_settings` allocates, every register index `i < m`, and every value
`v < 2^reg_width` (rather than every 8-bit value: for larger `v` the unmasked
comparison and the wrapping `u8` shift in `write_u8_bits` break the claim,
see the counterexample), after `set_if_greater(i, v)` the call `get(i)`
returns `max(prior, v)` — and `v = v & ((1<<reg_width)-1)` for such `v`. -/
theorem c5_amended (d : DenseRegisters) (i v : ℕ)
    (hrw1 : 1 ≤ d.settings.reg_width) (hrw8 : d.settings.reg_width ≤ 8)
    (hlen : d.buf.length
      = divide_by_8_round_up (2 ^ d.settings.log_2m * d.settings.reg_width))
    (hi : i < 2 ^ d.settings.log_2m) (hv : v < 2 ^ d.settings.reg_width) :
    (d.set_if_greater i v).get i = max (d.get i) v := by
  set w := d.settings.reg_width with hw
  set idx := (i * w) >>> 3 with hidxd
  set pos := (i * w) &&& 0x07 with hposd
  have hidx8 : idx = (i * w) / 8 := Nat.shiftRight_eq_div_pow _ 3
  have hpos8 : pos = (i * w) % 8 := by
    rw [hposd, show (0x07:ℕ) = 2 ^ 3 - 1 by norm_num, Nat.and_pow_two_sub_one_eq_mod]
  have hpos : pos < 8 := by omega
  have hx : i * w + w ≤ 2 ^ d.settings.log_2m * w := by
    calc i * w + w = (i + 1) * w := by ring
      _ ≤ 2 ^ d.settings.log_2m * w := Nat.mul_le_mul_right w hi
  have hlen' : d.buf.length =
      if (2 ^ d.settings.log_2m * w) % 8 > 0 then (2 ^ d.settings.log_2m * w) / 8 + 1
      else (2 ^ d.settings.log_2m * w) / 8 := by
    rw [hlen]
    unfold divide_by_8_round_up
    rw [show ((2 ^ d.settings.log_2m * w) &&& 0x07) = (2 ^ d.settings.log_2m * w) % 8 by
        rw [show (0x07:ℕ) = 2 ^ 3 - 1 by norm_num, Nat.and_pow_two_sub_one_eq_mod],
      Nat.shiftRight_eq_div_pow]
  have hin : pos + w ≤ 8 → idx < d.buf.length := by
    intro _
    rw [hidx8, hlen']
    split <;> omega
  have hcross : 8 < pos + w → idx + 1 < d.buf.length := by
    intro hc
    rw [hidx8, hlen']
    have hdm := Nat.div_add_mod (i * w) 8
    split <;> omega
  have hsplit : d.set_if_greater i v = if read_u8_bits d.buf idx pos w < v
      then { d with buf := write_u8_bits d.buf idx pos v w } else d := rfl
  rw [hsplit]
  by_cases hlt : read_u8_bits d.buf idx pos w < v
  · rw [if_pos hlt,
      show ({ d with buf := write_u8_bits d.buf idx pos v w } : DenseRegisters).get i
        = read_u8_bits (write_u8_bits d.buf idx pos v w) idx pos w from rfl,
      show d.get i = read_u8_bits d.buf idx pos w from rfl,
      read_write_u8 d.buf idx pos v w hpos hrw1 hrw8 hv hin hcross]
    omega
  · rw [if_neg hlt, show d.get i = read_u8_bits d.buf idx pos w from rfl]
    omega


/-- C5 (witness for the amended theorem at a concrete input). -/
theorem c5_amended_witness :
    ((DenseRegisters.with_settings ⟨4, 5, 0, none⟩).set_if_greater 0 3).get 0
      = max ((DenseRegisters.with_settings ⟨4, 5, 0, none⟩).get 0) 3 :=
  c5_amended (DenseRegisters.with_settings ⟨4, 5, 0, none⟩) 0 3 (by decide) (by decide)
    (by decide) (by decide) (by decide)

theorem foldl_preserves {α β : Type} (g : β → Settings) (f : β → α → β)
    (hf : ∀ b a, g (f b a) = g b) (l : List α) (b : β) :
    g (l.foldl f b) = g b := by
  induction l generalizing b with
  | nil => rfl
  | cons x t ih => rw [List.foldl_cons, ih, hf]

theorem sparse_set_settings (sp : SparseRegisters) (v : ℕ) :
    (sp.set v).settings = sp.settings := by
  unfold SparseRegisters.set
  cases set_calc sp.settings.log_2m sp.settings.reg_width v with
  | none => rfl
  | some p => rfl

theorem dense_set_if_greater_settings (d : DenseRegisters) (i v : ℕ) :
    (d.set_if_greater i v).settings = d.settings := by
  unfold DenseRegisters.set_if_greater
  dsimp only
  split <;> rfl

theorem dense_set_settings (d : DenseRegisters) (v : ℕ) :
    (d.set v).settings = d.settings := by
  unfold DenseRegisters.set
  cases set_calc d.settings.log_2m d.settings.reg_width v with
  | none => rfl
  | some p => exact dense_set_if_greater_settings d p.1 p.2

theorem to_dense_settings (sp : SparseRegisters) (o : Option Settings) :
    (sp.to_dense o).settings = o.getD sp.settings := by
  unfold SparseRegisters.to_dense
  exact @foldl_preserves (ℕ × ℕ) DenseRegisters DenseRegisters.settings
    (fun d p => d.set_reg p.1 p.2) (fun _ _ => rfl) sp.buf _

theorem union_sparse_settings (sp o : SparseRegisters) :
    (sp.union_sparse o).settings = sp.settings := by
  unfold SparseRegisters.union_sparse
  exact @foldl_preserves (ℕ × ℕ) SparseRegisters SparseRegisters.settings
    (fun a p => a.set_if_greater p.1 p.2) (fun _ _ => rfl) o.buf sp

theorem sparse_union_explicit_settings (sp : SparseRegisters) (e : ExplicitStorage) :
    (sp.union_explicit e).settings = sp.settings := by
  unfold SparseRegisters.union_explicit
  exact @foldl_preserves ℕ SparseRegisters SparseRegisters.settings
    (fun a v => a.set v) (fun b a => sparse_set_settings b a) e.buf sp

theorem dense_union_explicit_settings (d : DenseRegisters) (e : ExplicitStorage) :
    (d.union_explicit e).settings = d.settings := by
  unfold DenseRegisters.union_explicit
  exact @foldl_preserves ℕ DenseRegisters DenseRegisters.settings
    (fun a v => a.set v) (fun b a => dense_set_settings b a) e.buf d

theorem dense_union_sparse_settings (d : DenseRegisters) (sp : SparseRegisters) :
    (d.union_sparse sp).settings = d.settings := by
  unfold DenseRegisters.union_sparse
  exact @foldl_preserves (ℕ × ℕ) DenseRegisters DenseRegisters.settings
    (fun a p => a.set_if_greater p.1 p.2)
    (fun b a => dense_set_if_greater_settings b a.1 a.2) sp.buf d

theorem union_dense_settings (d o : DenseRegisters) :
    (d.union_dense o).settings = d.settings := by
  unfold DenseRegisters.union_dense
  exact @foldl_preserves ℕ DenseRegisters DenseRegisters.settings
    (fun a i => a.set_if_greater i (o.get i))
    (fun b a => dense_set_if_greater_settings b a (o.get a)) _ d

theorem add_raw_sd_settings (h : Hll) (v : ℕ) :
    (h.add_raw_sd v).settings = h.settings := by
  unfold Hll.add_raw_sd
  split
  · rfl
  split
  · rename_i sp
    dsimp only
    split
    · show (DenseRegisters.settings _) = _
      rw [to_dense_settings]
      show (sp.set v).settings = _
      exact sparse_set_settings sp v
    · exact sparse_set_settings sp v
  · rename_i d
    exact dense_set_settings d v
  · rfl

theorem add_raw_sd_sd (h : Hll) (v : ℕ) (hsd : h.is_sd_variant = true) :
    (h.add_raw_sd v).is_sd_variant = true := by
  unfold Hll.add_raw_sd
  split
  · exact hsd
  split
  · dsimp only; split <;> rfl
  · rfl
  · exact hsd

theorem as_registers_settings (e : ExplicitStorage) :
    e.as_registers.settings = e.settings := by
  unfold ExplicitStorage.as_registers
  rw [@foldl_preserves ℕ Hll Hll.settings Hll.add_raw_sd
    (fun b a => add_raw_sd_settings b a)]
  cases e.settings.sparse_threshold <;> rfl

theorem as_registers_sd (e : ExplicitStorage) :
    e.as_registers.is_sd_variant = true := by
  unfold ExplicitStorage.as_registers
  have base : ∀ (h0 : Hll), h0.is_sd_variant = true →
      (e.buf.foldl Hll.add_raw_sd h0).is_sd_variant = true := by
    intro h0 hh
    induction e.buf generalizing h0 with
    | nil => exact hh
    | cons x t ih => exact ih _ (add_raw_sd_sd h0 x hh)
  cases hst : e.settings.sparse_threshold with
  | none => exact base _ rfl
  | some t => exact base _ rfl

theorem upgrade_settings (h : Hll) : h.upgrade.settings = h.settings := by
  cases h with
  | Empty s => rfl
  | Explicit e => exact as_registers_settings e
  | Sparse sp =>
    show (sp.to_dense none).settings = _
    rw [to_dense_settings]
    rfl
  | Dense d => rfl

theorem sd_not_empty {h : Hll} (hsd : h.is_sd_variant = true) :
    h.is_empty_variant = false := by
  cases h <;> simp_all [Hll.is_sd_variant, Hll.is_empty_variant]

theorem union_f_settings (fuel : ℕ) :
    ∀ self other : Hll, self.is_empty_variant = false →
      (Hll.union_f fuel false self other).map Hll.settings = .ok self.settings := by
  induction fuel with
  | zero => intro self other _; rfl
  | succ n ih =>
    intro self other hne
    have hup : ∀ h' : Hll,
        ((Except.ok (if h'.is_full then h'.upgrade else h') :
            Except SettingsError Hll)).map Hll.settings = .ok h'.settings := by
      intro h'
      split
      · show Except.ok h'.upgrade.settings = _
        rw [upgrade_settings]
      · rfl
    cases self with
    | Empty s => simp [Hll.is_empty_variant] at hne
    | Explicit lhs =>
      cases other with
      | Empty s => exact hup (.Explicit lhs)
      | Explicit rhs => exact hup (.Explicit (lhs.union_explicit rhs))
      | Sparse rhs =>
        show (match Hll.union_f n false lhs.as_registers (.Sparse rhs) with
            | .error e => Except.error e
            | .ok h => .ok (if h.is_full then h.upgrade else h)).map Hll.settings = _
        have hrec := ih lhs.as_registers (.Sparse rhs)
          (sd_not_empty (as_registers_sd lhs))
        cases hres : Hll.union_f n false lhs.as_registers (.Sparse rhs) with
        | error e => rw [hres] at hrec; simp [Except.map] at hrec
        | ok h' =>
          rw [hres] at hrec
          simp only [Except.map] at hrec
          have hs : h'.settings = lhs.as_registers.settings := by
            injection hrec
          rw [hup h', hs, as_registers_settings]
          rfl
      | Dense rhs =>
        show (match Hll.union_f n false lhs.as_registers (.Dense rhs) with
            | .error e => Except.error e
            | .ok h => .ok (if h.is_full then h.upgrade else h)).map Hll.settings = _
        have hrec := ih lhs.as_registers (.Dense rhs)
          (sd_not_empty (as_registers_sd lhs))
        cases hres : Hll.union_f n false lhs.as_registers (.Dense rhs) with
        | error e => rw [hres] at hrec; simp [Except.map] at hrec
        | ok h' =>
          rw [hres] at hrec
          simp only [Except.map] at hrec
          have hs : h'.settings = lhs.as_registers.settings := by
            injection hrec
          rw [hup h', hs, as_registers_settings]
          rfl
    | Sparse lhs =>
      cases other with
      | Empty s => exact hup (.Sparse lhs)
      | Explicit rhs =>
        refine Eq.trans (hup (.Sparse (lhs.union_explicit rhs))) ?_
        show Except.ok (lhs.union_explicit rhs).settings = _
        rw [sparse_union_explicit_settings]
        rfl
      | Sparse rhs =>
        refine Eq.trans (hup (.Sparse (lhs.union_sparse rhs))) ?_
        show Except.ok (lhs.union_sparse rhs).settings = _
        rw [union_sparse_settings]
        rfl
      | Dense rhs =>
        refine Eq.trans (hup (.Dense ((lhs.to_dense none).union_dense rhs))) ?_
        show Except.ok ((lhs.to_dense none).union_dense rhs).settings = _
        rw [union_dense_settings, to_dense_settings]
        rfl
    | Dense lhs =>
      cases other with
      | Empty s => exact hup (.Dense lhs)
      | Explicit rhs =>
        refine Eq.trans (hup (.Dense (lhs.union_explicit rhs))) ?_
        show Except.ok (lhs.union_explicit rhs).settings = _
        rw [dense_union_explicit_settings]
        rfl
      | Sparse rhs =>
        refine Eq.trans (hup (.Dense (lhs.union_sparse rhs))) ?_
        show Except.ok (lhs.union_sparse rhs).settings = _
        rw [dense_union_sparse_settings]
        rfl
      | Dense rhs =>
        refine Eq.trans (hup (.Dense (lhs.union_dense rhs))) ?_
        show Except.ok (lhs.union_dense rhs).settings = _
        rw [union_dense_settings]
        rfl

/-- C7 (counterexample): when self is Empty, `union(strict=false)` clones the
other side, adopting OTHER's settings: Empty with `log_2m = 4` unioned with a
Dense of `log_2m = 5` yields a result carrying `log_2m = 5`. -/
theorem c7_counterexample :
    (Hll.union false (.Empty ⟨4, 5, 0, none⟩)
        (.Dense (DenseRegisters.with_settings ⟨5, 5, 0, none⟩))).map Hll.settings
      = .ok ⟨5, 5, 0, none⟩
    ∧ (⟨5, 5, 0, none⟩ : Settings) ≠ ⟨4, 5, 0, none⟩ := by decide

/-- C7 (amended): for every pair of HLLs (whether or not their settings
differ), if self is NOT in the Empty variant, `union(strict=false, other)`
succeeds and the settings of the result equal self's settings from before the
call.  When self is Empty the result adopts other's payload and (except in
the Sparse-materialization sub-case) other's settings, so the claim fails
there (see the counterexample). -/
theorem c7_amended (self other : Hll) (hne : self.is_empty_variant = false) :
    (Hll.union false self other).map Hll.settings = .ok self.settings :=
  union_f_settings 2 self other hne

/-- C7 (witness for the amended theorem at a concrete input). -/
theorem c7_amended_witness :
    (Hll.union false (.Dense (DenseRegisters.with_settings ⟨4, 5, 0, none⟩))
        (.Empty ⟨5, 5, 0, none⟩)).map Hll.settings
      = .ok (Hll.settings (.Dense (DenseRegisters.with_settings ⟨4, 5, 0, none⟩))) :=
  c7_amended (.Dense (DenseRegisters.with_settings ⟨4, 5, 0, none⟩))
    (.Empty ⟨5, 5, 0, none⟩) (by decide)

theorem add_raw_sd_not_full (h : Hll) (v : ℕ)
    (hnf : h.is_full = false) : (h.add_raw_sd v).is_full = false := by
  unfold Hll.add_raw_sd
  split
  · exact hnf
  split
  · dsimp only
    split
    · rfl
    · rename_i sp hfull
      show (sp.set v).is_full = false
      exact Bool.not_eq_true _ ▸ hfull
  · rfl
  · exact hnf

theorem as_registers_not_full (e : ExplicitStorage)
    (hst : 0 ≤ e.settings.sparse_threshold.getD 0) :
    e.as_registers.is_full = false := by
  unfold ExplicitStorage.as_registers
  have step : ∀ (l : List ℕ) (h0 : Hll), h0.is_full = false →
      (l.foldl Hll.add_raw_sd h0).is_full = false := by
    intro l
    induction l with
    | nil => exact fun h0 hh => hh
    | cons x t ih => exact fun h0 hh => ih _ (add_raw_sd_not_full h0 x hh)
  cases hcase : e.settings.sparse_threshold with
  | none => exact step _ _ rfl
  | some t =>
    apply step
    show (SparseRegisters.with_settings e.settings).is_full = false
    unfold SparseRegisters.is_full SparseRegisters.with_settings
    rw [hcase] at hst ⊢
    simp only [Option.getD] at hst
    simp only [List.length_nil]
    simp
    omega

theorem exp_set_settings (e : ExplicitStorage) (v : ℕ) :
    (e.set v).settings = e.settings := rfl

theorem add_raw_invariant (h : Hll) (v : ℕ)
    (hst : 0 ≤ h.settings.sparse_threshold.getD 0)
    (hnf : h.is_full = false) :
    (h.add_raw v).settings = h.settings ∧ (h.add_raw v).is_full = false := by
  unfold Hll.add_raw
  by_cases hv : v = 0
  · rw [if_pos hv]
    exact ⟨rfl, hnf⟩
  rw [if_neg hv]
  cases h with
  | Empty s =>
    dsimp only
    by_cases hexp : s.explicit_threshold_value > 0
    · rw [if_pos hexp]
      have hfull : ((ExplicitStorage.with_settings s).set v).is_full = false := by
        show decide ((exp_insert [] v).length > s.explicit_threshold_value) = false
        simp only [exp_insert, List.length_singleton]
        simp
        omega
      dsimp only
      rw [hfull]
      simp only [Bool.false_eq_true, if_false]
      exact ⟨rfl, hfull⟩
    · rw [if_neg hexp]
      by_cases hsp : s.sparse_threshold.isSome
      · rw [if_pos hsp]
        dsimp only
        split
        · refine ⟨?_, rfl⟩
          show (DenseRegisters.settings _) = _
          rw [to_dense_settings]
          show ((SparseRegisters.with_settings s).set v).settings = s
          rw [sparse_set_settings]
          rfl
        · rename_i hfull
          refine ⟨?_, Bool.not_eq_true _ ▸ hfull⟩
          show ((SparseRegisters.with_settings s).set v).settings = s
          rw [sparse_set_settings]
          rfl
      · rw [if_neg hsp]
        dsimp only
        refine ⟨?_, rfl⟩
        show ((DenseRegisters.with_settings s).set v).settings = s
        rw [dense_set_settings]
        rfl
  | Explicit e =>
    dsimp only
    split
    · constructor
      · show (e.set v).as_registers.settings = e.settings
        rw [as_registers_settings, exp_set_settings]
      · apply as_registers_not_full
        rw [exp_set_settings]
        exact hst
    · rename_i hfull
      exact ⟨rfl, Bool.not_eq_true _ ▸ hfull⟩
  | Sparse sp =>
    dsimp only
    split
    · refine ⟨?_, rfl⟩
      show (DenseRegisters.settings _) = _
      rw [to_dense_settings]
      show (sp.set v).settings = _
      rw [sparse_set_settings]
      rfl
    · rename_i hfull
      exact ⟨sparse_set_settings sp v, Bool.not_eq_true _ ▸ hfull⟩
  | Dense d =>
    exact ⟨dense_set_settings d v, rfl⟩

/-- C8: after any ingestion into an HLL reachable from `Hll::new` with valid
settings (any sequence of `add_raw` calls), the resulting state never reports
`is_full()`: an Explicit that went over its threshold has been replaced via
`as_registers()` (whose re-ingestion loop also converts Sparse to Dense if it
overflows mid-way), and a Sparse over its threshold has been replaced by
`to_dense(None)`, so a full state is always upgraded before `add_raw`
returns. -/
theorem c8_never_full (s : Settings) (vs : List ℕ) (v : ℕ) (hs : s.valid) :
    (vs.foldl Hll.add_raw (Hll.new s)).is_full = false
    ∧ (Hll.add_raw (vs.foldl Hll.add_raw (Hll.new s)) v).is_full = false := by
  have hst : 0 ≤ s.sparse_threshold.getD 0 := hs.2.2.2.2
  have inv : ∀ (l : List ℕ) (h0 : Hll), h0.settings = s → h0.is_full = false →
      (l.foldl Hll.add_raw h0).settings = s ∧ (l.foldl Hll.add_raw h0).is_full = false := by
    intro l
    induction l with
    | nil => exact fun h0 ha hb => ⟨ha, hb⟩
    | cons x t ih =>
      intro h0 ha hb
      have step := add_raw_invariant h0 x (by rw [ha]; exact hst) hb
      exact ih _ (step.1.trans ha) step.2
  have hfold := inv vs (Hll.new s) rfl rfl
  refine ⟨hfold.2, ?_⟩
  exact (add_raw_invariant _ v (by rw [hfold.1]; exact hst) hfold.2).2

/-- C8 (witness at a concrete input). -/
theorem c8_never_full_witness :
    (([1, 2] : List ℕ).foldl Hll.add_raw (Hll.new ⟨11, 5, -1, some 512⟩)).is_full = false
    ∧ (Hll.add_raw (([1, 2] : List ℕ).foldl Hll.add_raw
          (Hll.new ⟨11, 5, -1, some 512⟩)) 3).is_full = false :=
  c8_never_full ⟨11, 5, -1, some 512⟩ [1, 2] 3 (by decide)

theorem alpha_msquared_lt (s : Settings) :
    s.alpha_msquared < ((2 ^ s.log_2m : ℕ) : ℝ) * 5 / 2 * ((2 ^ s.log_2m : ℕ) : ℝ) := by
  have hm : (0:ℝ) < ((2 ^ s.log_2m : ℕ) : ℝ) := by
    exact_mod_cast Nat.pos_pow_of_pos s.log_2m (by norm_num)
  set m : ℝ := ((2 ^ s.log_2m : ℕ) : ℝ) with hmdef
  unfold Settings.alpha_msquared
  split_ifs with h4 h5 h6
  · nlinarith [mul_pos hm hm]
  · nlinarith [mul_pos hm hm]
  · nlinarith [mul_pos hm hm]
  · have hd : (1:ℝ) < 1 + 1.079 / m := by
      have := div_pos (by norm_num : (0:ℝ) < 1.079) hm
      linarith
    have hq : (0.7213:ℝ) / (1 + 1.079 / m) < 0.7213 :=
      div_lt_self (by norm_num) hd
    nlinarith [mul_pos hm hm]

theorem card_est_all_zero (s : Settings) :
    Hll.card_est s (((2 ^ s.log_2m : ℕ) : ℝ), 2 ^ s.log_2m) = 0 := by
  have hm : (0:ℝ) < ((2 ^ s.log_2m : ℕ) : ℝ) := by
    exact_mod_cast Nat.pos_pow_of_pos s.log_2m (by norm_num)
  unfold Hll.card_est
  rw [if_pos]
  · show (⌈((2 ^ s.log_2m : ℕ) : ℝ)
        * Real.log (((2 ^ s.log_2m : ℕ) : ℝ) / ((2 ^ s.log_2m : ℕ) : ℝ))⌉).toNat = 0
    rw [div_self (ne_of_gt hm), Real.log_one, mul_zero, Int.ceil_zero]
    rfl
  · constructor
    · show 2 ^ s.log_2m ≠ 0
      positivity
    · show s.alpha_msquared / _ < s.small_estimator_cutoff
      unfold Settings.small_estimator_cutoff
      rw [div_lt_iff₀ hm]
      exact alpha_msquared_lt s

theorem sparse_empty_indicator (s : Settings) :
    (SparseRegisters.with_settings s).indicator
      = (((2 ^ s.log_2m : ℕ) : ℝ), 2 ^ s.log_2m) := by
  unfold SparseRegisters.indicator SparseRegisters.with_settings
  simp

theorem getD_replicate_zero (c k : ℕ) : (List.replicate c (0:ℕ)).getD k 0 = 0 := by
  rw [List.getD_eq_getElem?_getD, List.getElem?_replicate]
  split <;> rfl

theorem read_u8_bits_zero (c idx pos n : ℕ) :
    read_u8_bits (List.replicate c 0) idx pos n = 0 := by
  unfold read_u8_bits
  split
  · rw [getD_replicate_zero]
    simp
  · rw [getD_replicate_zero, getD_replicate_zero]
    simp

theorem dense_get_with_settings (s : Settings) (i : ℕ) :
    (DenseRegisters.with_settings s).get i = 0 := by
  unfold DenseRegisters.get DenseRegisters.with_settings
  exact read_u8_bits_zero _ _ _ _

theorem dense_empty_indicator (s : Settings) :
    (DenseRegisters.with_settings s).indicator
      = (((2 ^ s.log_2m : ℕ) : ℝ), 2 ^ s.log_2m) := by
  unfold DenseRegisters.indicator
  rw [Prod.mk.injEq]
  constructor
  · show (∑ i ∈ Finset.range (2 ^ s.log_2m),
        (1 : ℝ) / (2 : ℝ) ^ ((DenseRegisters.with_settings s).get i)) = _
    rw [Finset.sum_congr rfl (fun i _ => by rw [dense_get_with_settings s i])]
    simp
  · show (((List.range (2 ^ s.log_2m)).filter
        (fun i => (DenseRegisters.with_settings s).get i = 0)).length) = _
    rw [List.filter_eq_self.mpr]
    · exact List.length_range _
    · intro a _
      simp [dense_get_with_settings]

theorem cardinality_sparse_empty (s : Settings) :
    Hll.cardinality (.Sparse (SparseRegisters.with_settings s)) = 0 := by
  show Hll.card_est (SparseRegisters.with_settings s).settings
      (SparseRegisters.with_settings s).indicator = 0
  rw [sparse_empty_indicator]
  exact card_est_all_zero s

theorem cardinality_dense_empty (s : Settings) :
    Hll.cardinality (.Dense (DenseRegisters.with_settings s)) = 0 := by
  show Hll.card_est (DenseRegisters.with_settings s).settings
      (DenseRegisters.with_settings s).indicator = 0
  rw [dense_empty_indicator]
  exact card_est_all_zero s

theorem sparse_set_noop (sp : SparseRegisters) (v : ℕ)
    (h : v >>> sp.settings.log_2m = 0) : sp.set v = sp := by
  simp [SparseRegisters.set, set_calc, h]

theorem dense_set_noop (d : DenseRegisters) (v : ℕ)
    (h : v >>> d.settings.log_2m = 0) : d.set v = d := by
  simp [DenseRegisters.set, set_calc, h]

theorem with_settings_sparse_not_full (s : Settings) (t : ℤ)
    (hcase : s.sparse_threshold = some t) (hst : 0 ≤ t) :
    (SparseRegisters.with_settings s).is_full = false := by
  unfold SparseRegisters.is_full SparseRegisters.with_settings
  rw [hcase]
  simp
  omega

/-- C4 (counterexample): with explicit storage disabled (threshold 0, sparse
disabled) and `log_2m = 4`, `add_raw(1)` finds substream value `1 >> 4 = 0`
and touches no register, so the cardinality after one `add_raw` of the
nonzero value 1 is 0, not 1 as the claim demands. -/
theorem c4_counterexample :
    Hll.cardinality (Hll.add_raw (Hll.new ⟨4, 5, 0, none⟩) 1) = 0
    ∧ Hll.cardinality (Hll.add_raw (Hll.new ⟨4, 5, 0, none⟩) 1) ≠ 1 := by
  have hstate : Hll.add_raw (Hll.new ⟨4, 5, 0, none⟩) 1
      = .Dense (DenseRegisters.with_settings ⟨4, 5, 0, none⟩) := by decide
  rw [hstate, cardinality_dense_empty]
  exact ⟨rfl, by decide⟩

/-- C4 (amended): for every valid Settings `s` whose effective explicit
threshold is positive (so ingestion starts in Explicit mode — the
configurations the claim survives on), the cardinality of a freshly
constructed HLL after a single `add_raw(v)` equals 1 when `v` is nonzero and
0 when `v` is zero.  When explicit storage is disabled the claim fails for
nonzero values below `2^log_2m` (see the counterexample). -/
theorem c4_amended (s : Settings) (v : ℕ) (hs : s.valid)
    (ht : 0 < s.explicit_threshold_value) :
    Hll.cardinality (Hll.add_raw (Hll.new s) v) = if v = 0 then 0 else 1 := by
  by_cases hv : v = 0
  · rw [if_pos hv]
    show Hll.cardinality (Hll.add_raw (.Empty s) v) = 0
    unfold Hll.add_raw
    rw [if_pos hv]
    rfl
  · rw [if_neg hv]
    show Hll.cardinality (Hll.add_raw (.Empty s) v) = 1
    unfold Hll.add_raw
    rw [if_neg hv]
    dsimp only
    rw [if_pos ht]
    have hfull : ((ExplicitStorage.with_settings s).set v).is_full = false := by
      show decide ((exp_insert [] v).length > s.explicit_threshold_value) = false
      simp only [exp_insert, List.length_singleton]
      simp
      omega
    dsimp only
    rw [hfull]
    simp only [Bool.false_eq_true, if_false]
    rfl

/-- C4 (witness for the amended theorem at a concrete input). -/
theorem c4_amended_witness :
    Hll.cardinality (Hll.add_raw (Hll.new ⟨11, 5, -1, some 512⟩) 7)
      = if (7:ℕ) = 0 then 0 else 1 :=
  c4_amended ⟨11, 5, -1, some 512⟩ 7 (by decide) (by decide)

/-- C10 (counterexample): a Sparse state that is already over its threshold
(reachable through `from_bytes`, which never checks fullness) is NOT left
unchanged by `add_raw` of a small nonzero value: the value touches no
register, but the unconditional fullness check after `set` converts the
state to Dense. -/
theorem c10_counterexample :
    (Hll.Sparse ⟨⟨4, 1, 0, some 2⟩, [(0, 1), (1, 1), (2, 1)]⟩).is_sd_variant = true
    ∧ (1:ℕ) ≠ 0
    ∧ (1:ℕ) >>> (Hll.Sparse ⟨⟨4, 1, 0, some 2⟩, [(0, 1), (1, 1), (2, 1)]⟩).settings.log_2m = 0
    ∧ (Hll.Sparse ⟨⟨4, 1, 0, some 2⟩, [(0, 1), (1, 1), (2, 1)]⟩).add_raw 1
        ≠ Hll.Sparse ⟨⟨4, 1, 0, some 2⟩, [(0, 1), (1, 1), (2, 1)]⟩ := by decide

/-- C10 (amended): (a) for every HLL in the Sparse or Dense variant that is
not already over its sparse threshold, and every nonzero value `v` with
`v >> log_2m == 0`, `add_raw(v)` leaves the state completely unchanged
(a Sparse state already over threshold is instead converted to Dense, see
the counterexample); (b) consequently a fresh HLL with valid settings and
explicit storage disabled reports cardinality 0 even after ingesting up to
`2^log_2m - 1` distinct nonzero values below `2^log_2m`. -/
theorem c10_amended :
    (∀ (h : Hll) (v : ℕ), h.is_sd_variant = true → h.is_full = false → v ≠ 0 →
        v >>> h.settings.log_2m = 0 → h.add_raw v = h)
    ∧ ∀ (s : Settings) (vs : List ℕ), s.valid → s.explicit_threshold = 0 →
        (∀ v ∈ vs, v ≠ 0) → vs.Nodup → vs.length ≤ 2 ^ s.log_2m - 1 →
        (∀ v ∈ vs, v < 2 ^ s.log_2m) →
        Hll.cardinality (vs.foldl Hll.add_raw (Hll.new s)) = 0 := by
  constructor
  · intro h v hsd hnf hv hsub
    cases h with
    | Empty s => simp [Hll.is_sd_variant] at hsd
    | Explicit e => simp [Hll.is_sd_variant] at hsd
    | Sparse sp =>
      have hnf' : sp.is_full = false := hnf
      unfold Hll.add_raw
      rw [if_neg hv]
      dsimp only
      rw [sparse_set_noop sp v hsub, hnf']
      simp
    | Dense d =>
      unfold Hll.add_raw
      rw [if_neg hv]
      dsimp only
      rw [dense_set_noop d v hsub]
  · intro s vs hs hexp0 _ _ _ hlt
    have hev : s.explicit_threshold_value = 0 := by
      unfold Settings.explicit_threshold_value
      rw [hexp0]
      rfl
    have hstep : ∀ (h0 : Hll) (x : ℕ), x < 2 ^ s.log_2m →
        (h0 = .Empty s ∨ h0 = .Sparse (SparseRegisters.with_settings s)
          ∨ h0 = .Dense (DenseRegisters.with_settings s)) →
        (h0.add_raw x = .Empty s
          ∨ h0.add_raw x = .Sparse (SparseRegisters.with_settings s)
          ∨ h0.add_raw x = .Dense (DenseRegisters.with_settings s)) := by
      intro h0 x hxlt hh
      have hxsub : x >>> s.log_2m = 0 := by
        rw [Nat.shiftRight_eq_div_pow]
        exact Nat.div_eq_of_lt hxlt
      by_cases hx0 : x = 0
      · unfold Hll.add_raw
        rw [if_pos hx0]
        exact hh
      have hspfull : s.sparse_threshold.isSome = true →
          (SparseRegisters.with_settings s).is_full = false := by
        intro hsp
        obtain ⟨t, ht⟩ := Option.isSome_iff_exists.mp hsp
        have hst := hs.2.2.2.2
        rw [ht] at hst
        simp only [Option.getD] at hst
        exact with_settings_sparse_not_full s t ht hst
      rcases hh with rfl | rfl | rfl
      · unfold Hll.add_raw
        rw [if_neg hx0]
        dsimp only
        rw [if_neg (by omega)]
        by_cases hsp : s.sparse_threshold.isSome
        · rw [if_pos hsp]
          dsimp only
          rw [sparse_set_noop (SparseRegisters.with_settings s) x hxsub,
            hspfull hsp]
          simp
        · rw [if_neg hsp]
          dsimp only
          rw [dense_set_noop (DenseRegisters.with_settings s) x hxsub]
          simp
      · unfold Hll.add_raw
        rw [if_neg hx0]
        dsimp only
        rw [sparse_set_noop (SparseRegisters.with_settings s) x hxsub]
        by_cases hsp : s.sparse_threshold.isSome
        · rw [hspfull hsp]
          simp
        · have hnone := Option.not_isSome_iff_eq_none.mp hsp
          have hful : (SparseRegisters.with_settings s).is_full = true := by
            unfold SparseRegisters.is_full SparseRegisters.with_settings
            rw [hnone]
          rw [if_pos hful]
          right; right
          rfl
      · unfold Hll.add_raw
        rw [if_neg hx0]
        dsimp only
        rw [dense_set_noop (DenseRegisters.with_settings s) x hxsub]
        simp
    have hP : ∀ (l : List ℕ), (∀ v ∈ l, v < 2 ^ s.log_2m) → ∀ h0 : Hll,
        (h0 = .Empty s ∨ h0 = .Sparse (SparseRegisters.with_settings s)
          ∨ h0 = .Dense (DenseRegisters.with_settings s)) →
        (l.foldl Hll.add_raw h0 = .Empty s
          ∨ l.foldl Hll.add_raw h0 = .Sparse (SparseRegisters.with_settings s)
          ∨ l.foldl Hll.add_raw h0 = .Dense (DenseRegisters.with_settings s)) := by
      intro l
      induction l with
      | nil => exact fun _ h0 hh => hh
      | cons x t ih =>
        intro hbound h0 hh
        exact ih (fun v hv => hbound v (List.mem_cons_of_mem _ hv)) _
          (hstep h0 x (hbound x (List.mem_cons_self _ _)) hh)
    show (List.foldl Hll.add_raw (Hll.Empty s) vs).cardinality = 0
    rcases hP vs hlt (.Empty s) (Or.inl rfl) with hfin | hfin | hfin
    · rw [hfin]; rfl
    · rw [hfin]; exact cardinality_sparse_empty s
    · rw [hfin]; exact cardinality_dense_empty s

/-- C10 (witness for the amended theorem at concrete inputs). -/
theorem c10_amended_witness :
    (Hll.Dense (DenseRegisters.with_settings ⟨4, 5, 0, none⟩)).add_raw 3
        = Hll.Dense (DenseRegisters.with_settings ⟨4, 5, 0, none⟩)
    ∧ Hll.cardinality (([1, 2, 3] : List ℕ).foldl Hll.add_raw
        (Hll.new ⟨4, 5, 0, some 2⟩)) = 0 :=
  ⟨c10_amended.1 _ 3 (by decide) (by decide) (by decide) (by decide),
   c10_amended.2 ⟨4, 5, 0, some 2⟩ [1, 2, 3] (by decide) (by decide) (by decide)
     (by decide) (by decide) (by decide)⟩
